import Mathlib

/-!
Shallow embedding of `src/main.py` (`clean_dataframe`) for verification.

A pandas DataFrame is modelled as an ordered list of named columns, each an
ordered list of cells.  A cell is the tagged union over
Missing (NaN/NaT), Text (Python str), Number (float64, modelled as ℚ) and
Timestamp (a calendar instant, modelled by its ℚ encoding).

Pandas dtype conventions followed by the model (matching frames built by
`pd.read_excel`):
  * a column whose cells are all Number-or-Missing has a numeric dtype
    (an all-Missing column is float64, hence numeric);
  * a column whose cells are all Timestamp-or-Missing has dtype datetime64;
  * every other column (any Text present, or Number/Timestamp mixed)
    has dtype `object`.
The pandas `.str` accessor applied to an object column maps non-string
elements to NaN; the model reproduces this (`strMapCell`).
-/

inductive Cell where
  | missing : Cell
  | text : String → Cell
  | num : ℚ → Cell
  | ts : ℚ → Cell
  deriving DecidableEq, Repr

structure Column where
  name : String
  cells : List Cell
  deriving DecidableEq, Repr

abbrev Table := List Column

/-- Configuration of `clean_dataframe`: the source signature has exactly the
two keyword parameters `fill_missing : str` and
`constant_fill : str | int | float` (the latter modelled as a `Cell`). -/
structure Config where
  fill_missing : String
  constant_fill : Cell
  deriving DecidableEq, Repr

def isMissingB : Cell → Bool
  | Cell.missing => true
  | _ => false

def isTextB : Cell → Bool
  | Cell.text _ => true
  | _ => false

def isNumB : Cell → Bool
  | Cell.num _ => true
  | _ => false

def isTsB : Cell → Bool
  | Cell.ts _ => true
  | _ => false

/-- Pandas numeric dtype: every cell is a float64 or NaN. -/
def isNumericCells (l : List Cell) : Bool :=
  l.all (fun c => isNumB c || isMissingB c)

/-- Pandas datetime64 dtype: every cell is a Timestamp or NaT. -/
def isDatetimeCells (l : List Cell) : Bool :=
  l.all (fun c => isTsB c || isMissingB c)

/-- Pandas `object` dtype: neither numeric nor datetime (some Text present,
or Number/Timestamp mixed). -/
def isObjectCells (l : List Cell) : Bool :=
  !(isNumericCells l) && !(isDatetimeCells l)

/-! Characters.  `isPySpace` is Python's whitespace set (`str.isspace`),
which is both what `str.strip()` strips and what `\s` matches in a
Python 3 `re` pattern over `str`. -/

def isPySpace (c : Char) : Bool :=
  c.toNat == 32 || (9 ≤ c.toNat && c.toNat ≤ 13) || (28 ≤ c.toNat && c.toNat ≤ 31) ||
    c.toNat == 0x85 || c.toNat == 0xA0 || c.toNat == 0x1680 ||
    (0x2000 ≤ c.toNat && c.toNat ≤ 0x200A) || c.toNat == 0x2028 ||
    c.toNat == 0x2029 || c.toNat == 0x202F || c.toNat == 0x205F || c.toNat == 0x3000

def isPrintableAscii (c : Char) : Bool :=
  0x20 ≤ c.toNat && c.toNat ≤ 0x7E

/-- Python `str.lower` on one character, as the sequence of characters it
produces.  A-Z fold to a-z.  Exactly two other code points have a
lowercase image containing printable ASCII and are mapped exactly:
U+212A KELVIN SIGN lowers to "k", and U+0130 LATIN CAPITAL LETTER I WITH
DOT ABOVE lowers to "i" followed by combining U+0307 (Unicode
SpecialCasing).  Every remaining character's lowercase image — including
the context-dependent final-sigma form of U+03A3 — is the character itself
or consists of non-ASCII, non-whitespace characters only; the pipeline's
later whitespace collapse and printable-ASCII filter treat such an image
and the character identically (both are run-breaking and then deleted), so
keeping the character is an observationally exact model of those cases. -/
def pyLowerChar (c : Char) : List Char :=
  if 65 ≤ c.toNat ∧ c.toNat ≤ 90 then [Char.ofNat (c.toNat + 32)]
  else if c.toNat = 0x212A then ['k']
  else if c.toNat = 0x130 then ['i', Char.ofNat 0x307]
  else [c]

/-! String operations of the normalizer, on `List Char`. -/

/-- Python `str.strip()`. -/
def pyStripChars (l : List Char) : List Char :=
  ((l.dropWhile isPySpace).reverse.dropWhile isPySpace).reverse

/-- Replacement of every maximal whitespace run by a single space:
`re.sub(r"\s+", " ", s)`.  The boolean argument records whether the
previous character belonged to a whitespace run. -/
def collapseAux : Bool → List Char → List Char
  | _, [] => []
  | prevSpace, c :: rest =>
    if isPySpace c then
      if prevSpace then collapseAux true rest
      else ' ' :: collapseAux true rest
    else c :: collapseAux false rest

def collapseChars (l : List Char) : List Char := collapseAux false l

/-- Deletion of every character outside printable ASCII:
`re.sub(r"[^\x20-\x7E]", "", s)`. -/
def removeNonPrintChars (l : List Char) : List Char :=
  l.filter isPrintableAscii

def pyStrip (s : String) : String := ⟨pyStripChars s.data⟩

def lowerStr (s : String) : String := ⟨s.data.bind pyLowerChar⟩

def collapseStr (s : String) : String := ⟨collapseChars s.data⟩

def removeNonPrintStr (s : String) : String := ⟨removeNonPrintChars s.data⟩

/-! The Text Normalizer stage (source lines 55-63). -/

/-- One cell of `df.applymap(lambda x: x.strip() if isinstance(x, str) else x)`. -/
def stripCell : Cell → Cell
  | Cell.text s => Cell.text (pyStrip s)
  | c => c

def applymapStrip (t : Table) : Table :=
  t.map (fun c => ⟨c.name, c.cells.map stripCell⟩)

/-- One cell of a pandas `Series.str` method with string transform `f`:
a string is transformed, a non-string element (NaN included) becomes NaN. -/
def strMapCell (f : String → String) : Cell → Cell
  | Cell.text s => Cell.text (f s)
  | _ => Cell.missing

/-- The three `df[col] = df[col].str....` assignments of the loop body, in
source order: lower-case, collapse whitespace runs, delete non-printables. -/
def normalizeObjectCells (cells : List Cell) : List Cell :=
  ((cells.map (strMapCell lowerStr)).map (strMapCell collapseStr)).map
    (strMapCell removeNonPrintStr)

/-- Source lines 55-63: whole-frame strip, then the `.str` loop over the
columns of `df.select_dtypes(include="object")`. -/
def normalizeTable (t : Table) : Table :=
  (applymapStrip t).map
    (fun c => if isObjectCells c.cells then ⟨c.name, normalizeObjectCells c.cells⟩ else c)

/-- Composite effect of the normalizer on one Text cell of an object
column: strip, lower, collapse whitespace, delete non-printables. -/
def normalizeString (s : String) : String :=
  removeNonPrintStr (collapseStr (lowerStr (pyStrip s)))

/-- Composite effect of the normalizer on one cell of an object column. -/
def normalizeObjectCell : Cell → Cell
  | Cell.text s => Cell.text (normalizeString s)
  | Cell.missing => Cell.missing
  | _ => Cell.missing

/-! The Missing-Value Resolver stage (source lines 66-77). -/

def nonMissingCells (l : List Cell) : List Cell :=
  l.filter (fun c => !(isMissingB c))

def countCell (l : List Cell) (v : Cell) : Nat :=
  (l.filter (fun c => c = v)).length

/-- Lexicographic order on strings by code point. -/
def strLtB : List Char → List Char → Bool
  | [], [] => false
  | [], _ :: _ => true
  | _ :: _, [] => false
  | a :: as, b :: bs =>
    if a.toNat < b.toNat then true
    else if b.toNat < a.toNat then false
    else strLtB as bs

/-- Strict total order on cell values, used to pick the first entry of the
sorted multimodal result of `Series.mode`. -/
def cellLtB : Cell → Cell → Bool
  | Cell.missing, Cell.missing => false
  | Cell.missing, _ => true
  | Cell.num _, Cell.missing => false
  | Cell.num a, Cell.num b => a < b
  | Cell.num _, _ => true
  | Cell.ts a, Cell.ts b => a < b
  | Cell.ts _, Cell.text _ => true
  | Cell.ts _, _ => false
  | Cell.text a, Cell.text b => strLtB a.data b.data
  | Cell.text _, _ => false

/-- Whether `y` is preferred over `b` as the column mode: strictly more
frequent in `nm`, or equally frequent and smaller (the `[0]` element of the
sorted Series returned by `Series.mode`). -/
def modeBetter (nm : List Cell) (y b : Cell) : Bool :=
  countCell nm b < countCell nm y ||
    (countCell nm y = countCell nm b && cellLtB y b)

def pickModeAux (nm : List Cell) : List Cell → Option Cell
  | [] => none
  | y :: ys =>
    match pickModeAux nm ys with
    | none => some y
    | some b => if modeBetter nm y b then some y else some b

/-- The value `df[col].mode(dropna=True)[0]`, `none` when the mode Series
is empty (every value of the column missing). -/
def pickMode (nm : List Cell) : Option Cell := pickModeAux nm nm

def cellNumValue : Cell → Option ℚ
  | Cell.num q => some q
  | _ => none

def numValues (l : List Cell) : List ℚ := l.filterMap cellNumValue

/-- Arithmetic mean of the column's non-missing values
(`Series.mean`, NaN — here `none` — when there are none). -/
def meanOf (l : List Cell) : Option ℚ :=
  let xs := numValues l
  if xs.length = 0 then none else some (xs.sum / (xs.length : ℚ))

def insertSortedQ (x : ℚ) : List ℚ → List ℚ
  | [] => [x]
  | y :: ys => if x ≤ y then x :: y :: ys else y :: insertSortedQ x ys

def sortQ (l : List ℚ) : List ℚ := l.foldr insertSortedQ []

/-- Median of the column's non-missing values (`Series.median`: middle
element of the sorted values, or the mean of the two middle elements). -/
def medianOf (l : List Cell) : Option ℚ :=
  let xs := sortQ (numValues l)
  let n := xs.length
  if n = 0 then none
  else if n % 2 = 1 then xs.get? (n / 2)
  else
    match xs.get? (n / 2 - 1), xs.get? (n / 2) with
    | some a, some b => some ((a + b) / 2)
    | _, _ => none

/-- The `Series.fillna(v)` cell map. -/
def fillCells (v : Cell) (l : List Cell) : List Cell :=
  l.map (fun c => if isMissingB c then v else c)

/-- Row filter of `df.dropna(subset=[col])`: `keep` is the non-missing mask
of the subset column, applied in lockstep to a column's cells. -/
def applyMask : List Bool → List Cell → List Cell
  | b :: bs, x :: xs => if b then x :: applyMask bs xs else applyMask bs xs
  | _, _ => []

/-- Whole-table effect of `df = df.dropna(subset=[col j])`. -/
def dropMissingRows (t : Table) (j : Nat) : Table :=
  match t.get? j with
  | none => t
  | some c =>
    let mask := c.cells.map (fun x => !(isMissingB x))
    t.map (fun col => ⟨col.name, applyMask mask col.cells⟩)

/-- Body of the resolver loop (source lines 66-77) for the column at
position `j` of the current frame: the `if df[col].isnull().any()` guard
followed by the `fill_missing` branch chain. -/
def stepResolve (cfg : Config) (t : Table) (j : Nat) : Table :=
  match t.get? j with
  | none => t
  | some c =>
    if c.cells.any isMissingB then
      if cfg.fill_missing = "mode" then
        t.set j ⟨c.name,
          fillCells ((pickMode (nonMissingCells c.cells)).getD cfg.constant_fill) c.cells⟩
      else if cfg.fill_missing = "mean" ∧ isNumericCells c.cells then
        match meanOf c.cells with
        | some m => t.set j ⟨c.name, fillCells (Cell.num m) c.cells⟩
        | none => t
      else if cfg.fill_missing = "median" ∧ isNumericCells c.cells then
        match medianOf c.cells with
        | some m => t.set j ⟨c.name, fillCells (Cell.num m) c.cells⟩
        | none => t
      else if cfg.fill_missing = "constant" then
        t.set j ⟨c.name, fillCells cfg.constant_fill c.cells⟩
      else if cfg.fill_missing = "drop" then
        dropMissingRows t j
      else t
    else t

/-- Source lines 66-77: `for col in df.columns:` — the column list is
captured once; no branch adds or removes a column, so iterating positions
0..n-1 of the entering frame is the same traversal. -/
def resolveTable (cfg : Config) (t : Table) : Table :=
  (List.range t.length).foldl (stepResolve cfg) t

/-! The Type Coercer stage (source lines 80-86). -/

def digitsToNat (l : List Char) : Nat :=
  l.foldl (fun a c => a * 10 + (c.toNat - 48)) 0

/-- Numeric parse of one string, the model of what `pd.to_numeric` accepts:
an optional sign, digits, an optional fractional part.  (Exponent forms and
embedded whitespace are not modelled; no claim depends on them.) -/
def parseNumber (s : String) : Option ℚ :=
  let l := s.data
  let signed : Bool × List Char :=
    match l with
    | '-' :: r => (true, r)
    | '+' :: r => (false, r)
    | r => (false, r)
  let ip := signed.2.takeWhile Char.isDigit
  let rest := signed.2.dropWhile Char.isDigit
  let mag : Option ℚ :=
    match rest with
    | [] => if ip.isEmpty then none else some (digitsToNat ip : ℚ)
    | '.' :: fp =>
      if fp.all Char.isDigit && !(ip.isEmpty && fp.isEmpty) then
        some ((digitsToNat ip : ℚ) + (digitsToNat fp : ℚ) / ((10 : ℚ) ^ fp.length))
      else none
    | _ => none
  mag.map (fun q => if signed.1 then -q else q)

/-- Temporal parse of one string, the model of what `pd.to_datetime`
accepts: an ISO `YYYY-MM-DD` literal, encoded as the ℚ value
`y*10000 + m*100 + d`.  (The many other formats pandas accepts are not
modelled; no claim depends on them.) -/
def parseDate (s : String) : Option ℚ :=
  match s.data with
  | [a, b, c, d, '-', e, f, '-', g, h] =>
    if [a, b, c, d, e, f, g, h].all Char.isDigit then
      some ((digitsToNat [a, b, c, d] * 10000 + digitsToNat [e, f] * 100 +
        digitsToNat [g, h] : Nat) : ℚ)
    else none
  | _ => none

/-- All-or-nothing elementwise conversion (the `errors="ignore"` contract:
the whole column converts, or the attempt is abandoned). -/
def mapOption (f : Cell → Option Cell) : List Cell → Option (List Cell)
  | [] => some []
  | x :: xs =>
    match f x, mapOption f xs with
    | some y, some ys => some (y :: ys)
    | _, _ => none

/-- One cell under `pd.to_numeric`: NaN passes, a float passes, a string
must parse, a Timestamp fails. -/
def cellToNumeric : Cell → Option Cell
  | Cell.missing => some Cell.missing
  | Cell.num q => some (Cell.num q)
  | Cell.text s => (parseNumber s).map Cell.num
  | Cell.ts _ => none

/-- One cell under `pd.to_datetime`: NaN passes, a Timestamp passes, a
float is read as an epoch offset, a string must parse as a date. -/
def cellToDatetime : Cell → Option Cell
  | Cell.missing => some Cell.missing
  | Cell.ts q => some (Cell.ts q)
  | Cell.num q => some (Cell.ts q)
  | Cell.text s => (parseDate s).map Cell.ts

/-- Source lines 80-86 for one column: `pd.to_numeric(df[col],
errors="ignore")` when the dtype is object, then `pd.to_datetime(df[col],
errors="ignore")` when the dtype is still object. -/
def coerceColumn (c : Column) : Column :=
  let c1 : Column :=
    if isObjectCells c.cells then
      match mapOption cellToNumeric c.cells with
      | some cs => ⟨c.name, cs⟩
      | none => c
    else c
  if isObjectCells c1.cells then
    match mapOption cellToDatetime c1.cells with
    | some cs => ⟨c1.name, cs⟩
    | none => c1
  else c1

def coerceTable (t : Table) : Table := t.map coerceColumn

/-! The Finalizer (source lines 88-89). -/

/-- `df.reset_index(drop=True, inplace=True)`: rows of the model are
positional, so renumbering the index to 0..n-1 is the identity.  Note the
reachable source contains no `drop_duplicates` call. -/
def finalizeTable (t : Table) : Table := t

/-- The reachable body of `clean_dataframe` (source lines 52-91):
defensive copy (the identity on values), Text Normalizer, Missing-Value
Resolver, Type Coercer, index reset, return.  The fuzzy-reconciliation
block at lines 92-96 sits after the `return` statement and is unreachable.
-/
def clean_dataframe (cfg : Config) (df : Table) : Table :=
  finalizeTable (coerceTable (resolveTable cfg (normalizeTable df)))

def defaultConfig : Config := ⟨"constant", Cell.text "unknown"⟩

/-- Number of rows of a frame (all columns of a DataFrame have the same
length; the model reads the first column's). -/
def rowCount (t : Table) : Nat :=
  match t with
  | [] => 0
  | c :: _ => c.cells.length

/-- Cell at column `j`, row `i`. -/
def getCell (t : Table) (j i : Nat) : Option Cell :=
  (t.get? j).bind (fun c => c.cells.get? i)

/-! Lemmas about the Text Normalizer. -/

lemma stripCell_not_text (x : Cell) (h : isTextB x = false) : stripCell x = x := by
  cases x <;> simp_all [isTextB, stripCell]

lemma isNumB_stripCell (x : Cell) : isNumB (stripCell x) = isNumB x := by
  cases x <;> rfl

lemma isTsB_stripCell (x : Cell) : isTsB (stripCell x) = isTsB x := by
  cases x <;> rfl

lemma isMissingB_stripCell (x : Cell) : isMissingB (stripCell x) = isMissingB x := by
  cases x <;> rfl

lemma isNumericCells_map_stripCell (l : List Cell) :
    isNumericCells (l.map stripCell) = isNumericCells l := by
  induction l with
  | nil => rfl
  | cons x xs ih =>
    simp only [isNumericCells, List.map_cons, List.all_cons] at *
    rw [isNumB_stripCell, isMissingB_stripCell, ih]

lemma isDatetimeCells_map_stripCell (l : List Cell) :
    isDatetimeCells (l.map stripCell) = isDatetimeCells l := by
  induction l with
  | nil => rfl
  | cons x xs ih =>
    simp only [isDatetimeCells, List.map_cons, List.all_cons] at *
    rw [isTsB_stripCell, isMissingB_stripCell, ih]

lemma isObjectCells_map_stripCell (l : List Cell) :
    isObjectCells (l.map stripCell) = isObjectCells l := by
  simp [isObjectCells, isNumericCells_map_stripCell, isDatetimeCells_map_stripCell]

lemma normalizeObjectCells_map_stripCell (l : List Cell) :
    normalizeObjectCells (l.map stripCell) = l.map normalizeObjectCell := by
  simp only [normalizeObjectCells, List.map_map]
  apply List.map_congr_left
  intro x _
  cases x <;> rfl

lemma not_text_of_numeric_or_datetime (l : List Cell)
    (h : isObjectCells l = false) : ∀ x ∈ l, isTextB x = false := by
  intro x hx
  by_cases hn : isNumericCells l = true
  · have := (List.all_eq_true.mp hn) x hx
    cases x <;> simp_all [isNumB, isMissingB, isTextB]
  · by_cases hd : isDatetimeCells l = true
    · have := (List.all_eq_true.mp hd) x hx
      cases x <;> simp_all [isTsB, isMissingB, isTextB]
    · exfalso
      simp only [isObjectCells, Bool.not_eq_true] at h hn hd
      rw [hn, hd] at h
      simp at h

lemma map_stripCell_of_not_object (l : List Cell)
    (h : isObjectCells l = false) : l.map stripCell = l := by
  have : l.map stripCell = l.map id := by
    apply List.map_congr_left
    intro x hx
    exact stripCell_not_text x (not_text_of_numeric_or_datetime l h x hx)
  rw [this, List.map_id]

/-- Characterization of the whole Text Normalizer stage: an object-dtype
column gets the composite per-cell map (Text normalized, anything else
NaN-ified by the `.str` accessor); every other column is untouched. -/
lemma normalizeTable_characterization (t : Table) :
    normalizeTable t = t.map (fun c =>
      if isObjectCells c.cells then ⟨c.name, c.cells.map normalizeObjectCell⟩
      else c) := by
  simp only [normalizeTable, applymapStrip, List.map_map]
  apply List.map_congr_left
  intro c _
  simp only [Function.comp]
  rw [isObjectCells_map_stripCell]
  by_cases h : isObjectCells c.cells = true
  · simp only [h, if_pos]
    rw [normalizeObjectCells_map_stripCell]
  · simp only [Bool.not_eq_true] at h
    simp only [h, Bool.false_eq_true, if_false]
    cases c with
    | mk nm cells =>
      simp only [Column.mk.injEq, true_and]
      exact map_stripCell_of_not_object cells h

/-! Normalized strings: stripped, lower-cased, single internal spaces,
printable ASCII only. -/

def noDoubleSpace : List Char → Bool
  | c₁ :: c₂ :: rest => !(c₁.toNat == 32 && c₂.toNat == 32) && noDoubleSpace (c₂ :: rest)
  | _ => true

def headNotSpace (l : List Char) : Bool :=
  match l.head? with
  | some c => !(c.toNat == 32)
  | none => true

def lastNotSpace (l : List Char) : Bool :=
  match l.getLast? with
  | some c => !(c.toNat == 32)
  | none => true

/-- A string in normal form for the Text Normalizer: every character
printable ASCII, no upper-case ASCII letter, no two adjacent spaces, no
leading or trailing space. -/
def normalizedChars (l : List Char) : Bool :=
  l.all isPrintableAscii && l.all (fun c => !(65 ≤ c.toNat && c.toNat ≤ 90)) &&
    noDoubleSpace l && headNotSpace l && lastNotSpace l

lemma char_eq_space_of_toNat (c : Char) (h : c.toNat = 32) : c = ' ' := by
  have hc := Char.ofNat_toNat c
  rw [h] at hc
  exact hc.symm

lemma isPySpace_of_printable (c : Char) (hp : isPrintableAscii c = true) :
    isPySpace c = (c.toNat == 32) := by
  simp only [isPrintableAscii, Bool.and_eq_true, decide_eq_true_eq] at hp
  by_cases h : c.toNat = 32
  · simp [isPySpace, h]
  · have h32 : (c.toNat == 32) = false := by simp [h]
    rw [h32]
    simp only [isPySpace, Bool.or_eq_false_iff, Bool.and_eq_false_iff,
      decide_eq_false_iff_not, beq_eq_false_iff_ne, ne_eq]
    omega

lemma dropWhile_isPySpace_id (l : List Char) (hp : l.all isPrintableAscii = true)
    (hh : headNotSpace l = true) : l.dropWhile isPySpace = l := by
  cases l with
  | nil => rfl
  | cons c rest =>
    simp only [headNotSpace, List.head?_cons, Bool.not_eq_true', beq_eq_false_iff_ne,
      ne_eq] at hh
    simp only [List.all_cons, Bool.and_eq_true] at hp
    have hsp : isPySpace c = false := by
      rw [isPySpace_of_printable c hp.1]
      simp [hh]
    simp [List.dropWhile_cons, hsp]

lemma pyStripChars_id (l : List Char) (hp : l.all isPrintableAscii = true)
    (hh : headNotSpace l = true) (hl : lastNotSpace l = true) :
    pyStripChars l = l := by
  unfold pyStripChars
  rw [dropWhile_isPySpace_id l hp hh]
  rw [dropWhile_isPySpace_id l.reverse]
  · exact List.reverse_reverse l
  · rw [List.all_reverse]; exact hp
  · simp only [headNotSpace, List.head?_reverse]
    exact hl

lemma bind_pyLowerChar_id (l : List Char)
    (hp : l.all isPrintableAscii = true)
    (hu : l.all (fun c => !(65 ≤ c.toNat && c.toNat ≤ 90)) = true) :
    l.bind pyLowerChar = l := by
  induction l with
  | nil => rfl
  | cons c cs ih =>
    simp only [List.all_cons, Bool.and_eq_true] at hp hu
    have h1 : pyLowerChar c = [c] := by
      have hpc := hp.1
      have huc := hu.1
      simp only [isPrintableAscii, Bool.and_eq_true, decide_eq_true_eq] at hpc
      simp only [Bool.not_eq_true', Bool.and_eq_false_iff, decide_eq_false_iff_not] at huc
      unfold pyLowerChar
      rw [if_neg (by rcases huc with h | h <;> omega), if_neg (by omega), if_neg (by omega)]
    show pyLowerChar c ++ cs.bind pyLowerChar = c :: cs
    rw [h1, ih hp.2 hu.2]
    rfl

lemma noDoubleSpace_tail (c : Char) (rest : List Char)
    (h : noDoubleSpace (c :: rest) = true) : noDoubleSpace rest = true := by
  cases rest with
  | nil => rfl
  | cons d r =>
    simp only [noDoubleSpace, Bool.and_eq_true] at h
    exact h.2

lemma collapseAux_id (l : List Char) (hp : l.all isPrintableAscii = true)
    (hd : noDoubleSpace l = true) :
    collapseAux false l = l ∧ (headNotSpace l = true → collapseAux true l = l) := by
  induction l with
  | nil => exact ⟨rfl, fun _ => rfl⟩
  | cons c rest ih =>
    simp only [List.all_cons, Bool.and_eq_true] at hp
    have ih := ih hp.2 (noDoubleSpace_tail c rest hd)
    by_cases hc : c.toNat = 32
    · have hceq : c = ' ' := char_eq_space_of_toNat c hc
      have hsp : isPySpace c = true := by
        rw [isPySpace_of_printable c hp.1]
        simp [hc]
      have hrest : headNotSpace rest = true := by
        cases rest with
        | nil => rfl
        | cons d r =>
          simp only [noDoubleSpace, Bool.and_eq_true, Bool.not_eq_true',
            Bool.and_eq_false_iff, beq_eq_false_iff_ne, ne_eq] at hd
          rcases hd.1 with h1 | h1
          · exact absurd hc h1
          · simp [headNotSpace, h1]
      constructor
      · simp only [collapseAux, hsp, if_true, if_false, Bool.false_eq_true]
        rw [ih.2 hrest, hceq]
      · intro hh
        simp only [headNotSpace, List.head?_cons, Bool.not_eq_true',
          beq_eq_false_iff_ne, ne_eq] at hh
        exact absurd hc hh
    · have hsp : isPySpace c = false := by
        rw [isPySpace_of_printable c hp.1]
        simp [hc]
      constructor
      · simp only [collapseAux, hsp, Bool.false_eq_true, if_false]
        rw [ih.1]
      · intro _
        simp only [collapseAux, hsp, Bool.false_eq_true, if_false]
        rw [ih.1]

lemma removeNonPrintChars_id (l : List Char) (hp : l.all isPrintableAscii = true) :
    removeNonPrintChars l = l :=
  List.filter_eq_self.mpr (List.all_eq_true.mp hp)

/-- The composite normalizer transform is the identity on a string already
in normal form. -/
lemma normalizeString_id (s : String) (h : normalizedChars s.data = true) :
    normalizeString s = s := by
  simp only [normalizedChars, Bool.and_eq_true] at h
  obtain ⟨⟨⟨⟨hp, hu⟩, hd⟩, hh⟩, hl⟩ := h
  have e1 : pyStrip s = s := by
    simp only [pyStrip, pyStripChars_id s.data hp hh hl]
  have e2 : lowerStr s = s := by
    simp only [lowerStr, bind_pyLowerChar_id s.data hp hu]
  have e3 : collapseStr s = s := by
    simp only [collapseStr, collapseChars, (collapseAux_id s.data hp hd).1]
  have e4 : removeNonPrintStr s = s := by
    simp only [removeNonPrintStr, removeNonPrintChars_id s.data hp]
  simp only [normalizeString, e1, e2, e3, e4]

/-- A cell whose Text payload (if any) is already in normal form. -/
def cellTextNormalized : Cell → Bool
  | Cell.text s => normalizedChars s.data
  | _ => true

/-- A cell that is Text or Missing (the only cells the pandas `.str`
accessor leaves meaningful). -/
def isTextOrMissingB (x : Cell) : Bool := isTextB x || isMissingB x

/-- Claim C3 (amended).  The Text Normalizer stage of `clean_dataframe`
maps every object-dtype column cellwise — a Text cell to its original with
leading/trailing whitespace removed, case folded to lower, every internal
whitespace run collapsed to exactly one space, and every character outside
printable ASCII 0x20-0x7E removed, applied in that order; a Missing cell
to Missing; a Number or Timestamp cell (sitting in a mixed object column)
to Missing, not verbatim — and leaves every non-object column (hence every
Number, Timestamp or Missing cell outside mixed columns) unchanged. -/
theorem normalizer_stage_characterization (t : Table) :
    normalizeTable t = t.map (fun c =>
      if isObjectCells c.cells then ⟨c.name, c.cells.map normalizeObjectCell⟩
      else c) :=
  normalizeTable_characterization t

/-- Claim C3, counterexample to the claim as stated: in the mixed
object-dtype column `[Text "x", Timestamp 5]` the non-Text cell does not
pass through unchanged — the normalizer turns it into Missing. -/
theorem normalizer_changes_nontext_cell_in_mixed_column :
    normalizeTable [⟨"t0", [Cell.text "x", Cell.ts 5]⟩] =
      [⟨"t0", [Cell.text "x", Cell.missing]⟩] ∧ Cell.ts 5 ≠ Cell.missing := by
  constructor
  · rfl
  · decide

/-- Claim C8 (amended).  The Text Normalizer stage is a no-op on a table
whose Text cells are already normalized (stripped, lower-cased, single
internal spaces, printable ASCII only), provided its object-dtype columns
hold only Text or Missing cells — in a mixed object column the `.str`
operations would turn Number/Timestamp cells into Missing even though
every Text cell is already normal. -/
theorem normalizer_noop_on_normalized_table (t : Table)
    (hobj : ∀ c ∈ t, isObjectCells c.cells = true →
      ∀ x ∈ c.cells, isTextOrMissingB x = true)
    (hnorm : ∀ c ∈ t, ∀ x ∈ c.cells, cellTextNormalized x = true) :
    normalizeTable t = t := by
  rw [normalizeTable_characterization]
  have : t.map (fun c =>
      if isObjectCells c.cells then ⟨c.name, c.cells.map normalizeObjectCell⟩
      else c) = t.map id := by
    apply List.map_congr_left
    intro c hc
    by_cases h : isObjectCells c.cells = true
    · simp only [h, if_true, id]
      cases c with
      | mk nm cells =>
        simp only [Column.mk.injEq, true_and]
        have : cells.map normalizeObjectCell = cells.map id := by
          apply List.map_congr_left
          intro x hx
          have hox := hobj ⟨nm, cells⟩ hc h x hx
          have hnx := hnorm ⟨nm, cells⟩ hc x hx
          cases x with
          | text s =>
            simp only [cellTextNormalized] at hnx
            simp only [normalizeObjectCell, id, normalizeString_id s hnx]
          | missing => rfl
          | num q => simp [isTextOrMissingB, isTextB, isMissingB] at hox
          | ts q => simp [isTextOrMissingB, isTextB, isMissingB] at hox
        rw [this, List.map_id]
    · simp only [Bool.not_eq_true] at h
      simp only [h, Bool.false_eq_true, if_false, id]
  rw [this, List.map_id]

/-- Witness for claim C8's amended theorem at a concrete normalized
two-column table. -/
theorem normalizer_noop_on_normalized_table_witness :
    normalizeTable [⟨"a", [Cell.text "ab c", Cell.missing]⟩,
      ⟨"n", [Cell.num 1, Cell.num 2]⟩] =
      [⟨"a", [Cell.text "ab c", Cell.missing]⟩, ⟨"n", [Cell.num 1, Cell.num 2]⟩] :=
  normalizer_noop_on_normalized_table _ (by decide) (by decide)

/-- Claim C8, counterexample to the claim as stated: every Text cell of
the table is already normalized, yet the normalizer changes the table (the
Number cell of the mixed object column becomes Missing). -/
theorem normalizer_not_noop_despite_normalized_text :
    (∀ c ∈ [(⟨"m", [Cell.text "a", Cell.num 1]⟩ : Column)], ∀ x ∈ c.cells,
      cellTextNormalized x = true) ∧
    normalizeTable [⟨"m", [Cell.text "a", Cell.num 1]⟩] ≠
      [⟨"m", [Cell.text "a", Cell.num 1]⟩] := by
  constructor
  · decide
  · decide

/-! Row-count lemmas for each stage. -/

lemma fillCells_length (v : Cell) (l : List Cell) :
    (fillCells v l).length = l.length := by
  simp [fillCells]

lemma applyMask_length_le : ∀ (m : List Bool) (xs : List Cell),
    (applyMask m xs).length ≤ xs.length := by
  intro m
  induction m with
  | nil => intro xs; cases xs <;> simp [applyMask]
  | cons b bs ih =>
    intro xs
    cases xs with
    | nil => simp [applyMask]
    | cons x xs =>
      by_cases hb : b = true
      · subst hb
        simp only [applyMask, if_true, List.length_cons]
        exact Nat.succ_le_succ (ih xs)
      · simp only [Bool.not_eq_true] at hb
        subst hb
        simp only [applyMask, Bool.false_eq_true, if_false, List.length_cons]
        exact Nat.le_succ_of_le (ih xs)

lemma rowCount_map_cells (f : Column → Column)
    (hlen : ∀ c, (f c).cells.length = c.cells.length) (t : Table) :
    rowCount (t.map f) = rowCount t := by
  cases t <;> simp [rowCount, hlen]

lemma rowCount_set (t : Table) (j : Nat) (c c' : Column)
    (hget : t.get? j = some c) (hlen : c'.cells.length = c.cells.length) :
    rowCount (t.set j c') = rowCount t := by
  cases t with
  | nil => simp at hget
  | cons h tl =>
    cases j with
    | zero =>
      simp only [List.get?_cons_zero, Option.some.injEq] at hget
      subst hget
      simp [rowCount, List.set, hlen]
    | succ j => simp [rowCount, List.set]

lemma rowCount_normalize (t : Table) : rowCount (normalizeTable t) = rowCount t := by
  rw [normalizeTable_characterization]
  apply rowCount_map_cells
  intro c
  by_cases h : isObjectCells c.cells = true <;> simp [h]

lemma rowCount_dropMissingRows (t : Table) (j : Nat) :
    rowCount (dropMissingRows t j) ≤ rowCount t := by
  unfold dropMissingRows
  cases hget : t.get? j with
  | none => exact le_refl _
  | some c =>
    cases t with
    | nil => simp [rowCount]
    | cons h tl =>
      simp only [List.map_cons]
      exact applyMask_length_le _ _

lemma rowCount_stepResolve (cfg : Config) (t : Table) (j : Nat) :
    rowCount (stepResolve cfg t j) ≤ rowCount t := by
  unfold stepResolve
  cases hget : t.get? j with
  | none => exact le_refl _
  | some c =>
    dsimp only
    by_cases hm : c.cells.any isMissingB
    · rw [if_pos hm]
      by_cases h1 : cfg.fill_missing = "mode"
      · rw [if_pos h1]
        exact le_of_eq (rowCount_set t j c _ hget (fillCells_length _ _))
      · rw [if_neg h1]
        by_cases h2 : cfg.fill_missing = "mean" ∧ isNumericCells c.cells
        · rw [if_pos h2]
          cases meanOf c.cells with
          | none => exact le_refl _
          | some m => exact le_of_eq (rowCount_set t j c _ hget (fillCells_length _ _))
        · rw [if_neg h2]
          by_cases h3 : cfg.fill_missing = "median" ∧ isNumericCells c.cells
          · rw [if_pos h3]
            cases medianOf c.cells with
            | none => exact le_refl _
            | some m => exact le_of_eq (rowCount_set t j c _ hget (fillCells_length _ _))
          · rw [if_neg h3]
            by_cases h4 : cfg.fill_missing = "constant"
            · rw [if_pos h4]
              exact le_of_eq (rowCount_set t j c _ hget (fillCells_length _ _))
            · rw [if_neg h4]
              by_cases h5 : cfg.fill_missing = "drop"
              · rw [if_pos h5]
                exact rowCount_dropMissingRows t j
              · rw [if_neg h5]
    · rw [if_neg hm]

lemma rowCount_resolve_fold (cfg : Config) (l : List Nat) :
    ∀ t : Table, rowCount (l.foldl (stepResolve cfg) t) ≤ rowCount t := by
  induction l with
  | nil => intro t; exact le_refl _
  | cons j js ih =>
    intro t
    simp only [List.foldl_cons]
    exact le_trans (ih _) (rowCount_stepResolve cfg t j)

lemma mapOption_length {f : Cell → Option Cell} :
    ∀ {l l' : List Cell}, mapOption f l = some l' → l'.length = l.length := by
  intro l
  induction l with
  | nil =>
    intro l' h
    simp only [mapOption, Option.some.injEq] at h
    subst h; rfl
  | cons x xs ih =>
    intro l' h
    simp only [mapOption] at h
    cases hx : f x with
    | none => rw [hx] at h; simp at h
    | some y =>
      rw [hx] at h
      cases hxs : mapOption f xs with
      | none => rw [hxs] at h; simp at h
      | some ys =>
        rw [hxs] at h
        simp only [Option.some.injEq] at h
        subst h
        simp [ih hxs]

lemma coerceColumn_cells_length (c : Column) :
    (coerceColumn c).cells.length = c.cells.length := by
  unfold coerceColumn
  by_cases h1 : isObjectCells c.cells
  · simp only [h1, if_true]
    cases hn : mapOption cellToNumeric c.cells with
    | none =>
      simp only [h1, if_true]
      cases hd : mapOption cellToDatetime c.cells with
      | none => rfl
      | some cs => exact mapOption_length hd
    | some cs =>
      by_cases h2 : isObjectCells cs
      · simp only [h2, if_true]
        cases hd : mapOption cellToDatetime cs with
        | none => exact mapOption_length hn
        | some cs2 => exact (mapOption_length hd).trans (mapOption_length hn)
      · simp only [h2, Bool.false_eq_true, if_false]
        exact mapOption_length hn
  · simp only [h1, Bool.false_eq_true, if_false]

lemma rowCount_coerce (t : Table) : rowCount (coerceTable t) = rowCount t :=
  rowCount_map_cells coerceColumn coerceColumn_cells_length t

/-- Claim C4.  For every input table and configuration, the pipeline never
adds a row: the row count of `clean_dataframe cfg t` is at most that of
`t`. -/
theorem clean_dataframe_rowcount_le (cfg : Config) (t : Table) :
    rowCount (clean_dataframe cfg t) ≤ rowCount t := by
  unfold clean_dataframe finalizeTable resolveTable
  rw [rowCount_coerce]
  exact le_trans (rowCount_resolve_fold cfg _ _) (le_of_eq (rowCount_normalize t))

/-! Column-name lemmas for each stage. -/

lemma names_map (f : Column → Column) (h : ∀ c, (f c).name = c.name) (t : Table) :
    (t.map f).map Column.name = t.map Column.name := by
  rw [List.map_map]
  apply List.map_congr_left
  intro c _
  exact h c

lemma names_normalize (t : Table) :
    (normalizeTable t).map Column.name = t.map Column.name := by
  rw [normalizeTable_characterization]
  apply names_map
  intro c
  by_cases h : isObjectCells c.cells = true <;> simp [h]

lemma list_set_self {α : Type} : ∀ (l : List α) (n : Nat) (a : α),
    l.get? n = some a → l.set n a = l := by
  intro l
  induction l with
  | nil => intro n a h; simp at h
  | cons x xs ih =>
    intro n a h
    cases n with
    | zero =>
      simp only [List.get?_cons_zero, Option.some.injEq] at h
      subst h; rfl
    | succ n =>
      simp only [List.get?_cons_succ] at h
      simp [List.set, ih n a h]

lemma names_set (t : Table) (j : Nat) (c c' : Column)
    (hget : t.get? j = some c) (hname : c'.name = c.name) :
    (t.set j c').map Column.name = t.map Column.name := by
  rw [List.map_set, hname]
  apply list_set_self
  rw [List.get?_map, hget]
  rfl

lemma names_stepResolve (cfg : Config) (t : Table) (j : Nat) :
    (stepResolve cfg t j).map Column.name = t.map Column.name := by
  unfold stepResolve
  cases hget : t.get? j with
  | none => rfl
  | some c =>
    dsimp only
    by_cases hm : c.cells.any isMissingB
    · rw [if_pos hm]
      by_cases h1 : cfg.fill_missing = "mode"
      · rw [if_pos h1]
        exact names_set t j c _ hget rfl
      · rw [if_neg h1]
        by_cases h2 : cfg.fill_missing = "mean" ∧ isNumericCells c.cells
        · rw [if_pos h2]
          cases meanOf c.cells with
          | none => rfl
          | some m => exact names_set t j c _ hget rfl
        · rw [if_neg h2]
          by_cases h3 : cfg.fill_missing = "median" ∧ isNumericCells c.cells
          · rw [if_pos h3]
            cases medianOf c.cells with
            | none => rfl
            | some m => exact names_set t j c _ hget rfl
          · rw [if_neg h3]
            by_cases h4 : cfg.fill_missing = "constant"
            · rw [if_pos h4]
              exact names_set t j c _ hget rfl
            · rw [if_neg h4]
              by_cases h5 : cfg.fill_missing = "drop"
              · rw [if_pos h5]
                unfold dropMissingRows
                cases hget2 : t.get? j with
                | none => rfl
                | some c2 =>
                  exact names_map
                    (fun col => ⟨col.name,
                      applyMask (c2.cells.map (fun x => !(isMissingB x))) col.cells⟩)
                    (fun _ => rfl) t
              · rw [if_neg h5]
    · rw [if_neg hm]

lemma names_resolve_fold (cfg : Config) (l : List Nat) :
    ∀ t : Table, (l.foldl (stepResolve cfg) t).map Column.name = t.map Column.name := by
  induction l with
  | nil => intro t; rfl
  | cons j js ih =>
    intro t
    simp only [List.foldl_cons]
    rw [ih _, names_stepResolve]

lemma coerceColumn_name (c : Column) : (coerceColumn c).name = c.name := by
  unfold coerceColumn
  by_cases h1 : isObjectCells c.cells
  · simp only [h1, if_true]
    cases hn : mapOption cellToNumeric c.cells with
    | none =>
      simp only [h1, if_true]
      cases hd : mapOption cellToDatetime c.cells with
      | none => rfl
      | some cs => rfl
    | some cs =>
      by_cases h2 : isObjectCells cs
      · simp only [h2, if_true]
        cases hd : mapOption cellToDatetime cs with
        | none => rfl
        | some cs2 => rfl
      · simp only [h2, Bool.false_eq_true, if_false]
  · simp only [h1, Bool.false_eq_true, if_false]

/-- Claim C2.  The reachable body of `clean_dataframe` never adds a
column: the output's column-name list is exactly the input's, for every
configuration — in particular no `{fuzzy_column}_cleaned` column ever
appears (the reconciliation block at source lines 92-96 is dead code after
the `return`, and the function accepts no fuzzy parameters at all). -/
theorem clean_dataframe_preserves_column_names (cfg : Config) (t : Table) :
    (clean_dataframe cfg t).map Column.name = t.map Column.name := by
  unfold clean_dataframe finalizeTable resolveTable coerceTable
  rw [names_map coerceColumn coerceColumn_name, names_resolve_fold, names_normalize]

/-! Mode-selection lemmas for the Missing-Value Resolver. -/

lemma modeBetter_true_le {nm : List Cell} {y b : Cell}
    (h : modeBetter nm y b = true) : countCell nm b ≤ countCell nm y := by
  simp only [modeBetter, Bool.or_eq_true, Bool.and_eq_true, decide_eq_true_eq] at h
  rcases h with h | h
  · exact le_of_lt h
  · exact le_of_eq h.1.symm

lemma modeBetter_false_le {nm : List Cell} {y b : Cell}
    (h : modeBetter nm y b = false) : countCell nm y ≤ countCell nm b := by
  simp only [modeBetter, Bool.or_eq_false_iff, Bool.and_eq_false_iff,
    decide_eq_false_iff_not] at h
  exact Nat.le_of_not_lt h.1

lemma pickModeAux_cons_isSome (nm : List Cell) (y : Cell) (ys : List Cell) :
    (pickModeAux nm (y :: ys)).isSome = true := by
  simp only [pickModeAux]
  cases pickModeAux nm ys with
  | none => rfl
  | some b =>
    dsimp only
    by_cases hb : modeBetter nm y b = true
    · rw [if_pos hb]; rfl
    · rw [if_neg hb]; rfl

lemma pickModeAux_mem (nm : List Cell) :
    ∀ (l : List Cell) (v : Cell), pickModeAux nm l = some v → v ∈ l := by
  intro l
  induction l with
  | nil => intro v h; simp [pickModeAux] at h
  | cons y ys ih =>
    intro v h
    simp only [pickModeAux] at h
    cases hys : pickModeAux nm ys with
    | none =>
      rw [hys] at h
      dsimp only at h
      simp only [Option.some.injEq] at h
      subst h
      exact List.mem_cons_self y ys
    | some b =>
      rw [hys] at h
      dsimp only at h
      by_cases hb : modeBetter nm y b = true
      · rw [if_pos hb] at h
        simp only [Option.some.injEq] at h
        subst h
        exact List.mem_cons_self y ys
      · rw [if_neg hb] at h
        simp only [Option.some.injEq] at h
        subst h
        exact List.mem_cons_of_mem y (ih b hys)

lemma pickModeAux_maximal (nm : List Cell) :
    ∀ (l : List Cell) (v : Cell), pickModeAux nm l = some v →
      ∀ w ∈ l, countCell nm w ≤ countCell nm v := by
  intro l
  induction l with
  | nil => intro v h; simp [pickModeAux] at h
  | cons y ys ih =>
    intro v h w hw
    simp only [pickModeAux] at h
    cases hys : pickModeAux nm ys with
    | none =>
      have hnil : ys = [] := by
        cases ys with
        | nil => rfl
        | cons z zs =>
          have := pickModeAux_cons_isSome nm z zs
          rw [hys] at this
          simp at this
      rw [hys] at h
      dsimp only at h
      simp only [Option.some.injEq] at h
      subst h
      subst hnil
      rcases List.mem_singleton.mp hw with rfl
      exact le_refl _
    | some b =>
      rw [hys] at h
      dsimp only at h
      rcases List.mem_cons.mp hw with rfl | hwys
      · by_cases hb : modeBetter nm w b = true
        · rw [if_pos hb] at h
          simp only [Option.some.injEq] at h
          subst h
          exact le_refl _
        · rw [if_neg hb] at h
          simp only [Option.some.injEq] at h
          subst h
          exact modeBetter_false_le (Bool.not_eq_true _ ▸ eq_false_of_ne_true hb)
      · have hle := ih b hys w hwys
        by_cases hb : modeBetter nm y b = true
        · rw [if_pos hb] at h
          simp only [Option.some.injEq] at h
          subst h
          exact le_trans hle (modeBetter_true_le hb)
        · rw [if_neg hb] at h
          simp only [Option.some.injEq] at h
          subst h
          exact hle

lemma pickModeAux_isSome (nm : List Cell) (l : List Cell) (h : l ≠ []) :
    (pickModeAux nm l).isSome = true := by
  cases l with
  | nil => exact absurd rfl h
  | cons y ys =>
    simp only [pickModeAux]
    cases pickModeAux nm ys with
    | none => rfl
    | some b =>
      dsimp only
      by_cases hb : modeBetter nm y b = true
      · rw [if_pos hb]; rfl
      · rw [if_neg hb]; rfl

/-- Equation for the resolver's `mode` branch. -/
lemma stepResolve_mode_eq (cfg : Config) (t : Table) (j : Nat) (c : Column)
    (hfill : cfg.fill_missing = "mode") (hget : t.get? j = some c)
    (hmiss : c.cells.any isMissingB = true) :
    stepResolve cfg t j = t.set j ⟨c.name,
      fillCells ((pickMode (nonMissingCells c.cells)).getD cfg.constant_fill)
        c.cells⟩ := by
  unfold stepResolve
  rw [hget]
  dsimp only
  rw [if_pos hmiss, if_pos hfill]

/-- Claim C6.  Under `fill_missing="mode"`, a column containing a Missing
value has every Missing replaced by a most frequent non-missing value of
the column (one attaining the maximal count); when the column has no
non-missing value at all, the fill value falls back to `constant_fill`. -/
theorem resolver_mode_fills_most_frequent (cfg : Config) (t : Table) (j : Nat)
    (c : Column) (hfill : cfg.fill_missing = "mode") (hget : t.get? j = some c)
    (hmiss : c.cells.any isMissingB = true) :
    (nonMissingCells c.cells = [] →
      stepResolve cfg t j = t.set j ⟨c.name, fillCells cfg.constant_fill c.cells⟩) ∧
    (∀ v, pickMode (nonMissingCells c.cells) = some v →
      stepResolve cfg t j = t.set j ⟨c.name, fillCells v c.cells⟩ ∧
      v ∈ nonMissingCells c.cells ∧
      ∀ w ∈ nonMissingCells c.cells,
        countCell (nonMissingCells c.cells) w ≤ countCell (nonMissingCells c.cells) v) ∧
    (nonMissingCells c.cells ≠ [] → (pickMode (nonMissingCells c.cells)).isSome = true) := by
  refine ⟨?_, ?_, ?_⟩
  · intro hnm
    rw [stepResolve_mode_eq cfg t j c hfill hget hmiss, hnm]
    rfl
  · intro v hv
    refine ⟨?_, pickModeAux_mem _ _ v hv, pickModeAux_maximal _ _ v hv⟩
    rw [stepResolve_mode_eq cfg t j c hfill hget hmiss, hv]
    rfl
  · intro hnm
    exact pickModeAux_isSome _ _ hnm

/-- Witness for claim C6's theorem: in the column `[b, a, a, Missing]`
under `fill_missing="mode"` the missing cell is filled with `a`, the
most frequent non-missing value. -/
theorem resolver_mode_fills_most_frequent_witness :
    stepResolve ⟨"mode", Cell.text "u"⟩
      [⟨"m", [Cell.text "b", Cell.text "a", Cell.text "a", Cell.missing]⟩] 0 =
      [⟨"m", [Cell.text "b", Cell.text "a", Cell.text "a", Cell.text "a"]⟩] :=
  ((resolver_mode_fills_most_frequent ⟨"mode", Cell.text "u"⟩
      [⟨"m", [Cell.text "b", Cell.text "a", Cell.text "a", Cell.missing]⟩] 0
      ⟨"m", [Cell.text "b", Cell.text "a", Cell.text "a", Cell.missing]⟩
      rfl rfl rfl).2.1 (Cell.text "a") (by decide)).1

/-- Equation for the resolver's `mean` branch on a numeric column. -/
lemma stepResolve_mean_eq (cfg : Config) (t : Table) (j : Nat) (c : Column)
    (hfill : cfg.fill_missing = "mean") (hget : t.get? j = some c)
    (hmiss : c.cells.any isMissingB = true) (hnum : isNumericCells c.cells = true) :
    stepResolve cfg t j =
      match meanOf c.cells with
      | some m => t.set j ⟨c.name, fillCells (Cell.num m) c.cells⟩
      | none => t := by
  unfold stepResolve
  rw [hget]
  dsimp only
  rw [if_pos hmiss, if_neg (by rw [hfill]; decide), if_pos ⟨hfill, hnum⟩]

/-- Equation for the resolver's `median` branch on a numeric column. -/
lemma stepResolve_median_eq (cfg : Config) (t : Table) (j : Nat) (c : Column)
    (hfill : cfg.fill_missing = "median") (hget : t.get? j = some c)
    (hmiss : c.cells.any isMissingB = true) (hnum : isNumericCells c.cells = true) :
    stepResolve cfg t j =
      match medianOf c.cells with
      | some m => t.set j ⟨c.name, fillCells (Cell.num m) c.cells⟩
      | none => t := by
  unfold stepResolve
  rw [hget]
  dsimp only
  rw [if_pos hmiss, if_neg (by rw [hfill]; decide),
    if_neg (by rw [hfill]; simp), if_pos ⟨hfill, hnum⟩]

/-- A non-numeric-dtype column is left untouched by the `mean` and
`median` strategies (the numeric guard fails and no other branch
matches). -/
lemma stepResolve_mean_median_nonnumeric (cfg : Config) (t : Table) (j : Nat)
    (c : Column) (hfill : cfg.fill_missing = "mean" ∨ cfg.fill_missing = "median")
    (hget : t.get? j = some c) (hnum : isNumericCells c.cells = false) :
    stepResolve cfg t j = t := by
  unfold stepResolve
  rw [hget]
  dsimp only
  by_cases hm : c.cells.any isMissingB
  · rw [if_pos hm]
    rcases hfill with hfill | hfill <;>
      rw [if_neg (by rw [hfill]; decide),
        if_neg (by rw [hfill, hnum]; simp),
        if_neg (by rw [hfill, hnum]; simp),
        if_neg (by rw [hfill]; decide),
        if_neg (by rw [hfill]; decide)]
  · rw [if_neg hm]

/-- Claim C5.  Under `fill_missing="mean"` (resp. `"median"`) the resolver
touches only columns of numeric dtype: a non-numeric column is left
unchanged with no fallback, and in a numeric column with a Missing value
every Missing cell is replaced by the arithmetic mean (resp. median) of
the column's non-missing values; on `[10, Missing, 20, 30]` both
strategies resolve the Missing cell to 20. -/
theorem resolver_mean_median_numeric_only :
    (∀ (cfg : Config) (t : Table) (j : Nat) (c : Column),
      (cfg.fill_missing = "mean" ∨ cfg.fill_missing = "median") →
      t.get? j = some c → isNumericCells c.cells = false →
      stepResolve cfg t j = t) ∧
    (∀ (cfg : Config) (t : Table) (j : Nat) (c : Column) (m : ℚ),
      cfg.fill_missing = "mean" → t.get? j = some c →
      c.cells.any isMissingB = true → isNumericCells c.cells = true →
      meanOf c.cells = some m →
      stepResolve cfg t j = t.set j ⟨c.name, fillCells (Cell.num m) c.cells⟩) ∧
    (∀ (cfg : Config) (t : Table) (j : Nat) (c : Column) (m : ℚ),
      cfg.fill_missing = "median" → t.get? j = some c →
      c.cells.any isMissingB = true → isNumericCells c.cells = true →
      medianOf c.cells = some m →
      stepResolve cfg t j = t.set j ⟨c.name, fillCells (Cell.num m) c.cells⟩) ∧
    meanOf [Cell.num 10, Cell.missing, Cell.num 20, Cell.num 30] = some 20 ∧
    medianOf [Cell.num 10, Cell.missing, Cell.num 20, Cell.num 30] = some 20 := by
  refine ⟨?_, ?_, ?_,
    by norm_num [meanOf, numValues, cellNumValue, List.filterMap],
    by norm_num [medianOf, sortQ, insertSortedQ, numValues, cellNumValue, List.filterMap]⟩
  · intro cfg t j c hfill hget hnum
    exact stepResolve_mean_median_nonnumeric cfg t j c hfill hget hnum
  · intro cfg t j c m hfill hget hmiss hnum hmean
    rw [stepResolve_mean_eq cfg t j c hfill hget hmiss hnum, hmean]
  · intro cfg t j c m hfill hget hmiss hnum hmed
    rw [stepResolve_median_eq cfg t j c hfill hget hmiss hnum, hmed]

/-- Witness for claim C5's theorem: the numeric column
`[10, Missing, 20, 30]` under `fill_missing="mean"` has its Missing cell
filled with 20. -/
theorem resolver_mean_median_numeric_only_witness :
    stepResolve ⟨"mean", Cell.text "u"⟩
      [⟨"n", [Cell.num 10, Cell.missing, Cell.num 20, Cell.num 30]⟩] 0 =
      [⟨"n", [Cell.num 10, Cell.num 20, Cell.num 20, Cell.num 30]⟩] :=
  resolver_mean_median_numeric_only.2.1 ⟨"mean", Cell.text "u"⟩
    [⟨"n", [Cell.num 10, Cell.missing, Cell.num 20, Cell.num 30]⟩] 0
    ⟨"n", [Cell.num 10, Cell.missing, Cell.num 20, Cell.num 30]⟩ 20
    rfl rfl (by decide) (by decide)
    (by norm_num [meanOf, numValues, cellNumValue, List.filterMap])

/-! All-or-nothing conversion lemmas for the Type Coercer. -/

lemma mapOption_isSome_iff {f : Cell → Option Cell} :
    ∀ {l : List Cell}, (mapOption f l).isSome = true ↔ ∀ x ∈ l, (f x).isSome = true := by
  intro l
  induction l with
  | nil => simp [mapOption]
  | cons x xs ih =>
    simp only [mapOption]
    constructor
    · intro h y hy
      cases hx : f x with
      | none => rw [hx] at h; simp at h
      | some z =>
        rw [hx] at h
        cases hxs : mapOption f xs with
        | none => rw [hxs] at h; simp at h
        | some zs =>
          rcases List.mem_cons.mp hy with rfl | hyxs
          · simp [hx]
          · exact ih.mp (by rw [hxs]; rfl) y hyxs
    · intro h
      have hx := h x (List.mem_cons_self x xs)
      have hxs := ih.mpr (fun y hy => h y (List.mem_cons_of_mem x hy))
      cases hfx : f x with
      | none => rw [hfx] at hx; simp at hx
      | some z =>
        cases hmxs : mapOption f xs with
        | none => rw [hmxs] at hxs; simp at hxs
        | some zs => rfl

lemma mapOption_cellToNumeric_numeric :
    ∀ {l l' : List Cell}, mapOption cellToNumeric l = some l' →
      isNumericCells l' = true := by
  intro l
  induction l with
  | nil =>
    intro l' h
    simp only [mapOption, Option.some.injEq] at h
    subst h; rfl
  | cons x xs ih =>
    intro l' h
    simp only [mapOption] at h
    cases hx : cellToNumeric x with
    | none => rw [hx] at h; simp at h
    | some y =>
      rw [hx] at h
      cases hxs : mapOption cellToNumeric xs with
      | none => rw [hxs] at h; simp at h
      | some ys =>
        rw [hxs] at h
        simp only [Option.some.injEq] at h
        subst h
        have hy : (isNumB y || isMissingB y) = true := by
          cases x with
          | missing =>
            simp only [cellToNumeric, Option.some.injEq] at hx
            subst hx; rfl
          | num q =>
            simp only [cellToNumeric, Option.some.injEq] at hx
            subst hx; rfl
          | text s =>
            simp only [cellToNumeric] at hx
            cases hp : parseNumber s with
            | none => rw [hp] at hx; simp at hx
            | some q =>
              rw [hp] at hx
              simp only [Option.map_some', Option.some.injEq] at hx
              subst hx; rfl
          | ts q => simp [cellToNumeric] at hx
        simp only [isNumericCells, List.all_cons, hy, Bool.true_and]
        exact ih hxs

/-- Numeric conversion success makes the column non-object, so the
datetime pass is skipped. -/
lemma coerceColumn_numeric_success (c : Column) (cs : List Cell)
    (hobj : isObjectCells c.cells = true)
    (hmn : mapOption cellToNumeric c.cells = some cs) :
    coerceColumn c = ⟨c.name, cs⟩ := by
  have hnum : isNumericCells cs = true := mapOption_cellToNumeric_numeric hmn
  have hobj2 : isObjectCells cs = false := by simp [isObjectCells, hnum]
  simp only [coerceColumn, hobj, if_true, hmn]
  simp only [hobj2, Bool.false_eq_true, if_false]

lemma coerceColumn_numeric_fail (c : Column)
    (hobj : isObjectCells c.cells = true)
    (hmn : mapOption cellToNumeric c.cells = none) :
    coerceColumn c =
      match mapOption cellToDatetime c.cells with
      | some cs => ⟨c.name, cs⟩
      | none => c := by
  simp only [coerceColumn, hobj, if_true, hmn]

/-- Claim C7.  For a column of object dtype the Type Coercer attempts
whole-column numeric reinterpretation first — succeeding exactly when
every non-missing cell converts — and only when the column is left
unconverted attempts whole-column temporal reinterpretation under the same
all-or-nothing rule; when both passes fail the column is returned as-is
(no partial coercion, the failure never escapes the stage). -/
theorem coercer_two_pass_all_or_nothing (c : Column)
    (hobj : isObjectCells c.cells = true) :
    ((mapOption cellToNumeric c.cells).isSome = true ↔
      ∀ x ∈ c.cells, x ≠ Cell.missing → (cellToNumeric x).isSome = true) ∧
    (∀ cs, mapOption cellToNumeric c.cells = some cs →
      coerceColumn c = ⟨c.name, cs⟩ ∧ isNumericCells cs = true) ∧
    (mapOption cellToNumeric c.cells = none →
      (∀ cs, mapOption cellToDatetime c.cells = some cs →
        coerceColumn c = ⟨c.name, cs⟩) ∧
      (mapOption cellToDatetime c.cells = none → coerceColumn c = c)) := by
  refine ⟨?_, ?_, ?_⟩
  · constructor
    · intro h x hx _
      exact mapOption_isSome_iff.mp h x hx
    · intro h
      apply mapOption_isSome_iff.mpr
      intro x hx
      by_cases hm : x = Cell.missing
      · subst hm; rfl
      · exact h x hx hm
  · intro cs hmn
    exact ⟨coerceColumn_numeric_success c cs hobj hmn,
      mapOption_cellToNumeric_numeric hmn⟩
  · intro hmn
    constructor
    · intro cs hmd
      rw [coerceColumn_numeric_fail c hobj hmn, hmd]
    · intro hmd
      rw [coerceColumn_numeric_fail c hobj hmn, hmd]

/-- Witness for claim C7's theorem: the column `["1", "x"]` fails both
passes (cell "x" parses as neither number nor date) and is returned
unchanged, as Text. -/
theorem coercer_two_pass_all_or_nothing_witness :
    coerceColumn ⟨"v", [Cell.text "1", Cell.text "x"]⟩ =
      ⟨"v", [Cell.text "1", Cell.text "x"]⟩ :=
  ((coercer_two_pass_all_or_nothing ⟨"v", [Cell.text "1", Cell.text "x"]⟩
      (by decide)).2.2 (by decide)).2 (by decide)

/-! Lemmas for an unrecognized `fill_missing` strategy. -/

lemma stepResolve_invalid_id (cfg : Config) (t : Table) (j : Nat)
    (h : cfg.fill_missing ∉ (["mode", "mean", "median", "constant", "drop"] : List String)) :
    stepResolve cfg t j = t := by
  simp only [List.mem_cons, List.mem_singleton, not_or] at h
  obtain ⟨h1, h2, h3, h4, h5, -⟩ := h
  unfold stepResolve
  cases hget : t.get? j with
  | none => rfl
  | some c =>
    dsimp only
    by_cases hm : c.cells.any isMissingB
    · rw [if_pos hm, if_neg h1, if_neg (by simp [h2]), if_neg (by simp [h3]),
        if_neg h4, if_neg h5]
    · rw [if_neg hm]

lemma resolve_fold_invalid_id (cfg : Config)
    (h : cfg.fill_missing ∉ (["mode", "mean", "median", "constant", "drop"] : List String)) :
    ∀ (l : List Nat) (t : Table), l.foldl (stepResolve cfg) t = t := by
  intro l
  induction l with
  | nil => intro t; rfl
  | cons j js ih =>
    intro t
    simp only [List.foldl_cons]
    rw [stepResolve_invalid_id cfg t j h, ih]

lemma mapOption_get? {f : Cell → Option Cell} :
    ∀ {l l' : List Cell} {i : Nat} {x : Cell}, mapOption f l = some l' →
      l.get? i = some x → ∃ y, f x = some y ∧ l'.get? i = some y := by
  intro l
  induction l with
  | nil => intro l' i x _ hx; simp at hx
  | cons a as ih =>
    intro l' i x h hx
    simp only [mapOption] at h
    cases ha : f a with
    | none => rw [ha] at h; simp at h
    | some y =>
      rw [ha] at h
      cases has : mapOption f as with
      | none => rw [has] at h; simp at h
      | some ys =>
        rw [has] at h
        simp only [Option.some.injEq] at h
        subst h
        cases i with
        | zero =>
          simp only [List.get?_cons_zero, Option.some.injEq] at hx
          subst hx
          exact ⟨y, ha, rfl⟩
        | succ i =>
          simp only [List.get?_cons_succ] at hx
          simp only [List.get?_cons_succ]
          exact ih has hx

lemma coerceColumn_not_object (c : Column) (h : isObjectCells c.cells = false) :
    coerceColumn c = c := by
  simp only [coerceColumn, h, Bool.false_eq_true, if_false]

lemma coerceColumn_missing_preserved (c : Column) (i : Nat)
    (h : c.cells.get? i = some Cell.missing) :
    (coerceColumn c).cells.get? i = some Cell.missing := by
  by_cases hobj : isObjectCells c.cells = true
  · cases hmn : mapOption cellToNumeric c.cells with
    | some cs =>
      rw [coerceColumn_numeric_success c cs hobj hmn]
      obtain ⟨y, hy, hcs⟩ := mapOption_get? hmn h
      simp only [cellToNumeric, Option.some.injEq] at hy
      subst hy
      exact hcs
    | none =>
      rw [coerceColumn_numeric_fail c hobj hmn]
      cases hmd : mapOption cellToDatetime c.cells with
      | some cs =>
        obtain ⟨y, hy, hcs⟩ := mapOption_get? hmd h
        simp only [cellToDatetime, Option.some.injEq] at hy
        subst hy
        exact hcs
      | none => exact h
  · rw [coerceColumn_not_object c (Bool.not_eq_true _ ▸ eq_false_of_ne_true hobj)]
    exact h

/-- Claim C10.  When `fill_missing` is none of "mode", "mean", "median",
"constant", "drop", the resolver loop takes no branch for any column: the
pipeline degenerates to Normalizer, Coercer and Finalizer, and every cell
that is Missing after text normalization is still Missing, at the same
position, in the output. -/
theorem invalid_fill_strategy_skips_imputation (cfg : Config) (t : Table)
    (h : cfg.fill_missing ∉ (["mode", "mean", "median", "constant", "drop"] : List String)) :
    clean_dataframe cfg t = finalizeTable (coerceTable (normalizeTable t)) ∧
    (∀ j i, getCell (normalizeTable t) j i = some Cell.missing →
      getCell (clean_dataframe cfg t) j i = some Cell.missing) := by
  have heq : clean_dataframe cfg t = finalizeTable (coerceTable (normalizeTable t)) := by
    unfold clean_dataframe resolveTable
    rw [resolve_fold_invalid_id cfg h]
  refine ⟨heq, ?_⟩
  intro j i hmiss
  rw [heq]
  unfold finalizeTable coerceTable getCell at *
  cases hj : (normalizeTable t).get? j with
  | none => rw [hj] at hmiss; simp at hmiss
  | some c =>
    rw [hj] at hmiss
    dsimp only [Option.bind] at hmiss
    rw [List.get?_map, hj]
    dsimp only [Option.map, Option.bind]
    exact coerceColumn_missing_preserved c i hmiss

/-- Witness for claim C10's theorem: with the unrecognized strategy
"skip" the pipeline equals normalize-then-coerce on a table containing a
Missing cell. -/
theorem invalid_fill_strategy_skips_imputation_witness :
    clean_dataframe ⟨"skip", Cell.text "u"⟩ [⟨"m", [Cell.missing, Cell.text "a"]⟩] =
      finalizeTable (coerceTable (normalizeTable
        [⟨"m", [Cell.missing, Cell.text "a"]⟩])) :=
  (invalid_fill_strategy_skips_imputation ⟨"skip", Cell.text "u"⟩
    [⟨"m", [Cell.missing, Cell.text "a"]⟩] (by decide)).1

/-! Reference model for the defensive copy (claim C9).

Python names are references to DataFrame objects on a heap.  Assigning
`df = <expr>` rebinds the local name to a (possibly new) object; methods
called with `inplace=True`, and column assignments `df[col] = ...`, mutate
the object currently bound.  `clean_dataframe` observationally performs:
`df.copy()` allocates a new frame; `df.applymap(...)` builds another new
frame; the normalizer column assignments, the fillna branches, the
coercion assignments and `reset_index(..., inplace=True)` mutate the
current frame; `df.dropna(...)` builds a new frame and rebinds.  The
caller's object is never written after the entry copy. -/

abbrev Heap := List (Nat × Table)

def hGet : Heap → Nat → Option Table
  | [], _ => none
  | (k, v) :: h, r => if k = r then some v else hGet h r

/-- In-place mutation of the object at reference `k` (the newest binding
shadows older ones). -/
def hSet (h : Heap) (k : Nat) (v : Table) : Heap := (k, v) :: h

def freshRef (h : Heap) : Nat :=
  (h.map Prod.fst).foldr (fun a b => max a b) 0 + 1

/-- Allocation of a new DataFrame object. -/
def hAlloc (h : Heap) (v : Table) : Heap × Nat :=
  ((freshRef h, v) :: h, freshRef h)

/-- Heap-level body of the resolver loop: the fillna branches mutate the
frame in place, `df = df.dropna(subset=[col])` allocates a new frame and
rebinds the local name (the mutated/new value is `stepResolve` of the
current one). -/
def stepResolveHeap (cfg : Config) (s : Heap × Nat × Table) (j : Nat) :
    Heap × Nat × Table :=
  match s.2.2.get? j with
  | none => s
  | some c =>
    if c.cells.any isMissingB then
      if cfg.fill_missing = "drop" then
        let t2 := stepResolve cfg s.2.2 j
        let p := hAlloc s.1 t2
        (p.1, p.2, t2)
      else
        let t2 := stepResolve cfg s.2.2 j
        (hSet s.1 s.2.1 t2, s.2.1, t2)
    else s

/-- Heap-level `clean_dataframe` on the reference `r`: `df = df.copy()`
allocates, `df = df.applymap(...)` allocates, every later stage mutates
the current frame in place except the dropna rebinds inside the resolver
loop.  Returns the final heap and the reference of the returned frame. -/
def clean_dataframe_heap (cfg : Config) (h : Heap) (r : Nat) : Heap × Nat :=
  match hGet h r with
  | none => (h, r)
  | some t0 =>
    let p1 := hAlloc h t0
    let t1 := applymapStrip t0
    let p2 := hAlloc p1.1 t1
    let t2 := normalizeTable t0
    let h2 := hSet p2.1 p2.2 t2
    let s3 := (List.range t2.length).foldl (stepResolveHeap cfg) (h2, p2.2, t2)
    let t4 := coerceTable s3.2.2
    let h4 := hSet s3.1 s3.2.1 t4
    let t5 := finalizeTable t4
    (hSet h4 s3.2.1 t5, s3.2.1)

lemma hGet_hSet_ne (h : Heap) (k r : Nat) (v : Table) (hne : k ≠ r) :
    hGet (hSet h k v) r = hGet h r := by
  simp [hSet, hGet, hne]

lemma freshRef_cons (k : Nat) (v : Table) (h : Heap) :
    freshRef ((k, v) :: h) = max k (freshRef h - 1) + 1 := by
  simp only [freshRef, List.map_cons, List.foldr_cons, Nat.add_sub_cancel]

lemma freshRef_pos (h : Heap) : 1 ≤ freshRef h := by
  simp [freshRef]

lemma freshRef_hSet_of_lt (h : Heap) (k : Nat) (v : Table) (hk : k < freshRef h) :
    freshRef (hSet h k v) = freshRef h := by
  simp only [hSet, freshRef_cons]
  have h1 := freshRef_pos h
  omega

lemma hGet_some_lt_freshRef (h : Heap) (r : Nat) (t : Table)
    (hg : hGet h r = some t) : r < freshRef h := by
  induction h with
  | nil => simp [hGet] at hg
  | cons kv hs ih =>
    obtain ⟨k, v⟩ := kv
    simp only [hGet] at hg
    rw [freshRef_cons]
    by_cases hk : k = r
    · omega
    · rw [if_neg hk] at hg
      have := ih hg
      have h1 := freshRef_pos hs
      omega

/-- The frame-preservation invariant carried through the heap pipeline:
the caller's reference still holds the original value, and the current
frame's reference is distinct from it and below the allocation bound. -/
def HeapInv (r : Nat) (t : Table) (s : Heap × Nat × Table) : Prop :=
  hGet s.1 r = some t ∧ s.2.1 ≠ r ∧ s.2.1 < freshRef s.1

lemma stepResolveHeap_inv (cfg : Config) (r : Nat) (t : Table)
    (s : Heap × Nat × Table) (j : Nat) (hinv : HeapInv r t s) :
    HeapInv r t (stepResolveHeap cfg s j) := by
  obtain ⟨hget, hne, hlt⟩ := hinv
  have hr : r < freshRef s.1 := hGet_some_lt_freshRef s.1 r t hget
  unfold stepResolveHeap
  cases s.2.2.get? j with
  | none => exact ⟨hget, hne, hlt⟩
  | some c =>
    dsimp only
    by_cases hm : c.cells.any isMissingB
    · rw [if_pos hm]
      by_cases hd : cfg.fill_missing = "drop"
      · rw [if_pos hd]
        refine ⟨?_, ?_, ?_⟩
        · dsimp only [hAlloc]
          rw [show ((freshRef s.1, stepResolve cfg s.2.2 j) :: s.1 : Heap) =
            hSet s.1 (freshRef s.1) (stepResolve cfg s.2.2 j) from rfl]
          rw [hGet_hSet_ne s.1 (freshRef s.1) r _ (by omega)]
          exact hget
        · dsimp only [hAlloc]
          omega
        · dsimp only [hAlloc]
          rw [freshRef_cons]
          have h1 := freshRef_pos s.1
          omega
      · rw [if_neg hd]
        refine ⟨?_, hne, ?_⟩
        · dsimp only
          rw [hGet_hSet_ne s.1 s.2.1 r _ hne]
          exact hget
        · dsimp only
          rw [freshRef_hSet_of_lt s.1 s.2.1 _ hlt]
          exact hlt
    · rw [if_neg hm]
      exact ⟨hget, hne, hlt⟩

lemma resolve_fold_heap_inv (cfg : Config) (r : Nat) (t : Table) :
    ∀ (l : List Nat) (s : Heap × Nat × Table), HeapInv r t s →
      HeapInv r t (l.foldl (stepResolveHeap cfg) s) := by
  intro l
  induction l with
  | nil => intro s hs; exact hs
  | cons j js ih =>
    intro s hs
    simp only [List.foldl_cons]
    exact ih _ (stepResolveHeap_inv cfg r t s j hs)

/-- Claim C9.  `clean_dataframe` never mutates the caller's frame: it
copies the table at entry and every later in-place mutation targets the
copy (or frames allocated later), so after the call the caller's reference
still holds exactly the original table. -/
theorem clean_dataframe_heap_preserves_caller (cfg : Config) (h : Heap)
    (r : Nat) (t : Table) (hg : hGet h r = some t) :
    hGet (clean_dataframe_heap cfg h r).1 r = some t := by
  have hr : r < freshRef h := hGet_some_lt_freshRef h r t hg
  unfold clean_dataframe_heap
  rw [hg]
  dsimp only [hAlloc]
  set h1 : Heap := (freshRef h, t) :: h with hh1
  have hg1 : hGet h1 r = some t := by
    rw [hh1, show ((freshRef h, t) :: h : Heap) = hSet h (freshRef h) t from rfl,
      hGet_hSet_ne h (freshRef h) r t (by omega)]
    exact hg
  have hr1 : r < freshRef h1 := hGet_some_lt_freshRef h1 r t hg1
  set a2 : Nat := freshRef h1 with ha2
  set h2 : Heap := (a2, applymapStrip t) :: h1 with hh2
  have hg2 : hGet h2 r = some t := by
    rw [hh2, show ((a2, applymapStrip t) :: h1 : Heap) =
      hSet h1 a2 (applymapStrip t) from rfl,
      hGet_hSet_ne h1 a2 r _ (by omega)]
    exact hg1
  have hr2 : r < freshRef h2 := hGet_some_lt_freshRef h2 r t hg2
  have ha2lt : a2 < freshRef h2 := by
    rw [hh2, freshRef_cons]
    omega
  set h3 : Heap := hSet h2 a2 (normalizeTable t) with hh3
  have hg3 : hGet h3 r = some t := by
    rw [hh3, hGet_hSet_ne h2 a2 r _ (by omega)]
    exact hg2
  have ha2f : a2 < freshRef h3 := by
    rw [hh3, freshRef_hSet_of_lt h2 a2 _ ha2lt]
    exact ha2lt
  have hne0 : a2 ≠ r := by omega
  have hinv0 : HeapInv r t (h3, a2, normalizeTable t) := ⟨hg3, hne0, ha2f⟩
  have hinv := resolve_fold_heap_inv cfg r t
    (List.range (normalizeTable t).length) (h3, a2, normalizeTable t) hinv0
  obtain ⟨hgf, hnef, hltf⟩ := hinv
  rw [hGet_hSet_ne _ _ r _ hnef, hGet_hSet_ne _ _ r _ hnef]
  exact hgf

/-- Witness for claim C9's theorem: a one-entry heap whose reference 0
holds a small table is unchanged at reference 0 by the pipeline. -/
theorem clean_dataframe_heap_preserves_caller_witness :
    hGet (clean_dataframe_heap defaultConfig
      [(0, [⟨"a", [Cell.text "B", Cell.missing]⟩])] 0).1 0 =
      some [⟨"a", [Cell.text "B", Cell.missing]⟩] :=
  clean_dataframe_heap_preserves_caller defaultConfig
    [(0, [⟨"a", [Cell.text "B", Cell.missing]⟩])] 0
    [⟨"a", [Cell.text "B", Cell.missing]⟩] rfl

/-- Claim C1, evaluation at the failing input: a table with two fully
identical rows passes through `clean_dataframe` unchanged — both rows
survive because the reachable code never calls `drop_duplicates`, contrary
to the docstring's "Drops duplicates". -/
theorem duplicates_not_dropped :
    clean_dataframe defaultConfig [⟨"a", [Cell.text "x", Cell.text "x"]⟩] =
      [⟨"a", [Cell.text "x", Cell.text "x"]⟩] ∧
    rowCount (clean_dataframe defaultConfig
      [⟨"a", [Cell.text "x", Cell.text "x"]⟩]) = 2 := by
  constructor <;> rfl

